import Mathlib

/-!
# Verification of the EKF-SLAM estimation core (`src/slam/EKFSLAM.py`)

Shallow embedding of the filter mechanics of the `EKFSLAM` dataclass over the
real numbers: the motion model `f` with its Jacobians `Fx`, `Fu`, covariance
prediction `predict`, the measurement model `h` and its Jacobian `h_jac`, the
landmark-insertion step `add_landmarks`, the association glue `associate`
(with the external `JCBB` search modelled as an oracle function parameter),
the correction step `update`, and the consistency metric `NEESes`.

Python/numpy `float64` arithmetic is idealised as real arithmetic, except in
`NEESes` where the degenerate-division behaviour (division by zero producing
`inf`/`nan` rather than raising) is modelled explicitly, because a claim turns
on it.  Vectors are `Fin n → ℝ` and matrices are Mathlib's `Matrix`; the flat
state layout `[pose(3); landmarks(2L)]` of the source is kept, with block
access through `Fin.castAdd` / `Fin.natAdd` exactly where the source slices
`[:3]` / `[3:]`.  `scipy.linalg.cho_factor`/`cho_solve` (a linear solve
against a positive-definite matrix) is modelled as multiplication by the
matrix inverse, which is what it computes in exact arithmetic.
-/

open Real Matrix

noncomputable section

namespace utils

/-- Modelled from the spec: `utils.wrapToPi` (the `utils` module is not under
`src/`).  Wraps an angle to the interval `(-π, π]`: the unique representative
`θ - 2πk`, `k ∈ ℤ`, lying in that interval. -/
def wrapToPi (θ : ℝ) : ℝ := θ - 2 * π * (⌈θ / (2 * π) - 1 / 2⌉ : ℤ)

/-- Modelled from the spec: `utils.rotmat2d` (the `utils` module is not under
`src/`).  The standard 2D rotation matrix `Rot(θ)`. -/
def rotmat2d (θ : ℝ) : Matrix (Fin 2) (Fin 2) ℝ :=
  !![Real.cos θ, -Real.sin θ; Real.sin θ, Real.cos θ]

/-- Modelled from the spec: `utils.rotmat2dDerivative` (the `utils` module is
not under `src/`).  The entrywise derivative `dRot/dθ` of the rotation
matrix. -/
def rotmat2dDerivative (θ : ℝ) : Matrix (Fin 2) (Fin 2) ℝ :=
  !![-Real.sin θ, -Real.cos θ; Real.cos θ, -Real.sin θ]

/-- Model of `np.arctan2 y x`: the argument of the point `(x, y)`, in
`(-π, π]`, matching numpy's convention on the half-line conventions that are
reachable here. -/
def arctan2 (y x : ℝ) : ℝ := Complex.arg (Complex.ofReal x + Complex.ofReal y * Complex.I)

end utils

/-- Totalise a `Fin n`-indexed vector to a function on `ℕ` (out-of-range
positions read `0`; every in-contract access stays in range, mirroring numpy
fancy indexing, which would raise out of range). -/
def vecFun {n : ℕ} (v : Fin n → ℝ) : ℕ → ℝ := fun t => if h : t < n then v ⟨t, h⟩ else 0

/-- Totalise a matrix to a function on `ℕ × ℕ`, as `vecFun` does for
vectors. -/
def matFun {m n : ℕ} (M : Matrix (Fin m) (Fin n) ℝ) : ℕ → ℕ → ℝ :=
  fun i j => if h : i < m ∧ j < n then M ⟨i, h.1⟩ ⟨j, h.2⟩ else 0

/-- Flatten a list of `(range, bearing)` detection pairs into the interleaved
flat measurement vector `[r₁, b₁, r₂, b₂, …]` used throughout the source
(`z.ravel()` on an `(#detections, 2)` array). -/
def flatPairs : List (ℝ × ℝ) → List ℝ
  | [] => []
  | p :: t => p.1 :: p.2 :: flatPairs t

/-- A `2k × 2k` block-diagonal matrix with the same `2 × 2` block `R` on the
diagonal `k` times: the `R` built per landmark by the einsum-broadcast in
`update` and `np.kron (np.eye k) R` are both exactly this matrix. -/
def repDiag (k : ℕ) (R : Matrix (Fin 2) (Fin 2) ℝ) : Matrix (Fin (2 * k)) (Fin (2 * k)) ℝ :=
  Matrix.of fun i j =>
    if (i : ℕ) / 2 = (j : ℕ) / 2 then
      R ⟨(i : ℕ) % 2, Nat.mod_lt _ (by norm_num)⟩ ⟨(j : ℕ) % 2, Nat.mod_lt _ (by norm_num)⟩
    else 0

/-- The `EKFSLAM` dataclass: process noise `Q`, measurement noise `R`, the
association switch, the JCBB significance levels, and the sensor lever arm. -/
structure EKFSLAM where
  Q : Matrix (Fin 3) (Fin 3) ℝ
  R : Matrix (Fin 2) (Fin 2) ℝ
  do_asso : Bool
  alphas : Fin 2 → ℝ
  sensor_offset : Fin 2 → ℝ

namespace EKFSLAM

/-- `EKFSLAM.f`: add the odometry `u` to the robot state `x`
(`xpred[0:2] = x[0:2] + Rot(x[2]) @ u[0:2]`, heading wrapped).  The Python
method ignores `self`. -/
def f (x u : Fin 3 → ℝ) : Fin 3 → ℝ :=
  let p := (utils.rotmat2d (x 2)).mulVec ![u 0, u 1]
  ![x 0 + p 0, x 1 + p 1, utils.wrapToPi (x 2 + u 2)]

/-- `EKFSLAM.Fx`: Jacobian of `f` w.r.t. `x` — identity except the
`(0:2, 2)` column, which is `dRot/dθ(x[2]) @ u[0:2]`. -/
def Fx (x u : Fin 3 → ℝ) : Matrix (Fin 3) (Fin 3) ℝ :=
  let d := (utils.rotmat2dDerivative (x 2)).mulVec ![u 0, u 1]
  !![1, 0, d 0; 0, 1, d 1; 0, 0, 1]

/-- `EKFSLAM.Fu`: Jacobian of `f` w.r.t. `u` — identity except the top-left
`2 × 2` block, which is `Rot(x[2])`. -/
def Fu (x u : Fin 3 → ℝ) : Matrix (Fin 3) (Fin 3) ℝ :=
  let r := utils.rotmat2d (x 2)
  !![r 0 0, r 0 1, 0; r 1 0, r 1 1, 0; 0, 0, 1]

/-- `EKFSLAM.predict` on a state with `L` landmarks: pose block of the mean
through `f`, landmarks pass through; covariance updated only in the
pose-pose block (`Fx P Fxᵀ + Fu Q Fuᵀ`), the pose-map block (`Fx P_xm`), and
the map-pose block (transpose of the new pose-map block), with the map-map
block untouched — exactly the three in-place slice assignments of the
source. -/
def predict (self : EKFSLAM) {L : ℕ} (eta : Fin (3 + 2 * L) → ℝ)
    (P : Matrix (Fin (3 + 2 * L)) (Fin (3 + 2 * L)) ℝ) (z_odo : Fin 3 → ℝ) :
    (Fin (3 + 2 * L) → ℝ) × Matrix (Fin (3 + 2 * L)) (Fin (3 + 2 * L)) ℝ :=
  let x : Fin 3 → ℝ := fun i => eta (Fin.castAdd (2 * L) i)
  let Fxm := Fx x z_odo
  let Fum := Fu x z_odo
  let Pxx := P.submatrix (Fin.castAdd (2 * L)) (Fin.castAdd (2 * L))
  let Pxm := P.submatrix (Fin.castAdd (2 * L)) (Fin.natAdd 3)
  let Pmm := P.submatrix (Fin.natAdd 3) (Fin.natAdd 3)
  (Fin.append (f x z_odo) fun i => eta (Fin.natAdd 3 i),
   Matrix.reindex finSumFinEquiv finSumFinEquiv
     (Matrix.fromBlocks (Fxm * Pxx * Fxmᵀ + Fum * self.Q * Fumᵀ)
       (Fxm * Pxm) (Fxm * Pxm)ᵀ Pmm))

end EKFSLAM

/-- Range component of the `j`-th detection in a flat interleaved
measurement vector (`z[2j]`). -/
def zr {k : ℕ} (z : Fin (2 * k) → ℝ) (j : ℕ) : ℝ := vecFun z (2 * j)

/-- Bearing component of the `j`-th detection in a flat interleaved
measurement vector (`z[2j+1]`). -/
def zb {k : ℕ} (z : Fin (2 * k) → ℝ) (j : ℕ) : ℝ := vecFun z (2 * j + 1)

namespace EKFSLAM

/-- The cartesian position of landmark `j` relative to the sensor, in world
frame: `m_j - eta[0:2] - Rot(heading) @ sensor_offset` — the per-landmark
column of the local `zc` array shared by the bodies of `h` and `h_jac`. -/
def zcOf (self : EKFSLAM) {L : ℕ} (eta : Fin (3 + 2 * L) → ℝ) (j : Fin L) : Fin 2 → ℝ :=
  fun c =>
    eta (Fin.natAdd 3 ⟨2 * (j : ℕ) + (c : ℕ), by have := j.isLt; have := c.isLt; omega⟩) -
      eta (Fin.castAdd (2 * L) ⟨(c : ℕ), by have := c.isLt; omega⟩) -
      (utils.rotmat2d (eta (Fin.castAdd (2 * L) 2))).mulVec self.sensor_offset c

/-- `EKFSLAM.h`: predicted measurements for all landmarks, interleaved
`[range1, bearing1, range2, bearing2, …]`; the range is the euclidean norm of
the sensor-relative position, the bearing the `arctan2` of that position
expressed in the sensor frame (`Rotᵀ @ zc`). -/
def h (self : EKFSLAM) {L : ℕ} (eta : Fin (3 + 2 * L) → ℝ) : Fin (2 * L) → ℝ :=
  fun t =>
    let j : Fin L := ⟨(t : ℕ) / 2, by have := t.isLt; omega⟩
    let Rot := utils.rotmat2d (eta (Fin.castAdd (2 * L) 2))
    if (t : ℕ) % 2 = 0 then
      Real.sqrt (self.zcOf eta j 0 ^ 2 + self.zcOf eta j 1 ^ 2)
    else
      utils.arctan2 ((Rotᵀ.mulVec (self.zcOf eta j)) 1) ((Rotᵀ.mulVec (self.zcOf eta j)) 0)

/-- Row `r` of the `2 × 3` pose block `Hx_i` of the measurement Jacobian for
landmark `i`: `Hx_i = [[zc_iᵀ/‖zc_i‖], [zc_iᵀ Rπ₂ᵀ/‖zc_i‖²]] @ diff` with
`diff = [-I₂ | -Rπ₂ (m_i - eta[0:2])]`. -/
def hxRow (self : EKFSLAM) {L : ℕ} (eta : Fin (3 + 2 * L) → ℝ) (i : Fin L) (r : Fin 2) :
    Fin 3 → ℝ :=
  let Rpihalf := utils.rotmat2d (π / 2)
  let delta : Fin 2 → ℝ := fun c =>
    eta (Fin.natAdd 3 ⟨2 * (i : ℕ) + (c : ℕ), by have := i.isLt; have := c.isLt; omega⟩) -
      eta (Fin.castAdd (2 * L) ⟨(c : ℕ), by have := c.isLt; omega⟩)
  let diff : Matrix (Fin 2) (Fin 3) ℝ :=
    !![-1, 0, -(Rpihalf.mulVec delta) 0; 0, -1, -(Rpihalf.mulVec delta) 1]
  let nrm := Real.sqrt (self.zcOf eta i 0 ^ 2 + self.zcOf eta i 1 ^ 2)
  fun c =>
    if (r : ℕ) = 0 then (self.zcOf eta i ⬝ᵥ fun s => diff s c) / nrm
    else ((Rpihalf.mulVec (self.zcOf eta i)) ⬝ᵥ fun s => diff s c) / nrm ^ 2

/-- `EKFSLAM.h_jac`: the `2L × (3+2L)` measurement Jacobian.  Rows `2i, 2i+1`
carry the pose block `Hx_i` in columns `0..2` and the landmark block
`Hm_i = -Hx_i[:, 0:2]` in columns `3+2i, 3+2i+1`; all other columns are
zero.  (The source also computes `zpred` and an unused `max_range` here;
they do not contribute to the returned matrix.) -/
def h_jac (self : EKFSLAM) {L : ℕ} (eta : Fin (3 + 2 * L) → ℝ) :
    Matrix (Fin (2 * L)) (Fin (3 + 2 * L)) ℝ :=
  Matrix.of fun t c =>
    let i : Fin L := ⟨(t : ℕ) / 2, by have := t.isLt; omega⟩
    let r : Fin 2 := ⟨(t : ℕ) % 2, by omega⟩
    if hc : (c : ℕ) < 3 then self.hxRow eta i r ⟨(c : ℕ), hc⟩
    else if (c : ℕ) - 3 = 2 * (i : ℕ) then -(self.hxRow eta i r 0)
    else if (c : ℕ) - 3 = 2 * (i : ℕ) + 1 then -(self.hxRow eta i r 1)
    else 0

/-- `EKFSLAM.add_landmarks`: convert each unmatched `(range, bearing)` pair
into a world-frame landmark, append the coordinates to the state, and grow
the covariance with the new-landmark block `Gx·P_xx·Gxᵀ + Rall`
(`Rall = blockdiag(Gz·R·Gzᵀ)`), the cross block `Gx·P[0:3, :]`, and its
transpose. -/
def add_landmarks (self : EKFSLAM) {L k : ℕ} (eta : Fin (3 + 2 * L) → ℝ)
    (P : Matrix (Fin (3 + 2 * L)) (Fin (3 + 2 * L)) ℝ) (z : Fin (2 * k) → ℝ) :
    (Fin (3 + 2 * L + 2 * k) → ℝ) ×
      Matrix (Fin (3 + 2 * L + 2 * k)) (Fin (3 + 2 * L + 2 * k)) ℝ :=
  let eta2 := eta (Fin.castAdd (2 * L) 2)
  let sow := (utils.rotmat2d eta2).mulVec self.sensor_offset
  let sowDer := (utils.rotmat2d (eta2 + π / 2)).mulVec self.sensor_offset
  let rot : ℕ → Matrix (Fin 2) (Fin 2) ℝ := fun j => utils.rotmat2d (zb z j + eta2)
  let lmnew : Fin (2 * k) → ℝ := fun t =>
    zr z ((t : ℕ) / 2) * rot ((t : ℕ) / 2) ⟨(t : ℕ) % 2, by omega⟩ 0 +
      eta (Fin.castAdd (2 * L) ⟨(t : ℕ) % 2, by omega⟩) + sow ⟨(t : ℕ) % 2, by omega⟩
  let Gx : Matrix (Fin (2 * k)) (Fin 3) ℝ := Matrix.of fun t c =>
    if (c : ℕ) < 2 then (if (c : ℕ) = (t : ℕ) % 2 then 1 else 0)
    else zr z ((t : ℕ) / 2) * rot ((t : ℕ) / 2) ⟨(t : ℕ) % 2, by omega⟩ 1 +
      sowDer ⟨(t : ℕ) % 2, by omega⟩
  let Gz : ℕ → Matrix (Fin 2) (Fin 2) ℝ := fun j => rot j * !![1, 0; 0, zr z j]
  let Rall : Matrix (Fin (2 * k)) (Fin (2 * k)) ℝ := Matrix.of fun t s =>
    if (t : ℕ) / 2 = (s : ℕ) / 2 then
      (Gz ((t : ℕ) / 2) * self.R * (Gz ((t : ℕ) / 2))ᵀ)
        ⟨(t : ℕ) % 2, by omega⟩ ⟨(s : ℕ) % 2, by omega⟩
    else 0
  let Pleft := P.submatrix (Fin.castAdd (2 * L)) id
  let Pxx := P.submatrix (Fin.castAdd (2 * L)) (Fin.castAdd (2 * L))
  (Fin.append eta lmnew,
   Matrix.reindex finSumFinEquiv finSumFinEquiv
     (Matrix.fromBlocks P (Gx * Pleft)ᵀ (Gx * Pleft) (Gx * Pxx * Gxᵀ + Rall)))

end EKFSLAM

/-- Type of the external `JCBB` joint-compatibility search (imported, not
part of this repository's core): flat measurements, flat predicted
measurements (totalised), innovation covariance (totalised), the two
significance levels, and the per-detection association vector as result. -/
def JCBBOracle : Type :=
  List ℝ → (ℕ → ℝ) → (ℕ → ℕ → ℝ) → ℝ → ℝ → List ℤ

/-- Detections surviving the association mask `a > -1`, paired with their
association index, in detection order (`z[zinds]` next to `a[a > -1]`). -/
def matchedDets (ds : List (ℝ × ℝ)) (a : List ℤ) : List ((ℝ × ℝ) × ℤ) :=
  (ds.zip a).filter fun p => decide (-1 < p.2)

/-- The landmark indices `a[a > -1]` of the matched detections. -/
def mjList (ds : List (ℝ × ℝ)) (a : List ℤ) : List ℕ :=
  (matchedDets ds a).map fun p => p.2.toNat

/-- Number of matched detections. -/
def matchedK (ds : List (ℝ × ℝ)) (a : List ℤ) : ℕ := (mjList ds a).length

/-- `zbarinds`: the flat index of the `t`-th matched scalar into
`zpred`/`S`/`H` — even positions `2·a[a>-1][t/2]`, odd positions one more. -/
def zbar (ds : List (ℝ × ℝ)) (a : List ℤ) (t : ℕ) : ℕ :=
  2 * ((mjList ds a).getD (t / 2) 0) + t % 2

/-- The matched measurements `zass = z[zinds]`, flattened. -/
def zassV (ds : List (ℝ × ℝ)) (a : List ℤ) : Fin (2 * matchedK ds a) → ℝ :=
  fun t => (flatPairs ((matchedDets ds a).map fun p => p.1)).getD t 0

/-- The matched predicted measurements `zpred[zbarinds]`. -/
def zpredMatched {L : ℕ} (zpred : Fin (2 * L) → ℝ) (ds : List (ℝ × ℝ)) (a : List ℤ) :
    Fin (2 * matchedK ds a) → ℝ :=
  fun t => vecFun zpred (zbar ds a t)

/-- The matched rows `H[zbarinds]` of the measurement Jacobian. -/
def Hmatched {L : ℕ} (H : Matrix (Fin (2 * L)) (Fin (3 + 2 * L)) ℝ)
    (ds : List (ℝ × ℝ)) (a : List ℤ) :
    Matrix (Fin (2 * matchedK ds a)) (Fin (3 + 2 * L)) ℝ :=
  Matrix.of fun t c => if hr : zbar ds a t < 2 * L then H ⟨zbar ds a t, hr⟩ c else 0

/-- The matched innovation covariance `S[zbarinds][:, zbarinds]`. -/
def Smatched {L : ℕ} (S : Matrix (Fin (2 * L)) (Fin (2 * L)) ℝ)
    (ds : List (ℝ × ℝ)) (a : List ℤ) :
    Matrix (Fin (2 * matchedK ds a)) (Fin (2 * matchedK ds a)) ℝ :=
  Matrix.of fun t s => matFun S (zbar ds a t) (zbar ds a s)

/-- The tuple returned by `EKFSLAM.associate` when association runs: the
matched measurements, predictions, Jacobian rows, innovation covariance, and
the raw association vector. -/
structure AssocResult (L : ℕ) where
  k : ℕ
  zass : Fin (2 * k) → ℝ
  zpredass : Fin (2 * k) → ℝ
  Hass : Matrix (Fin (2 * k)) (Fin (3 + 2 * L)) ℝ
  Sass : Matrix (Fin (2 * k)) (Fin (2 * k)) ℝ
  a : List ℤ

namespace EKFSLAM

/-- `EKFSLAM.associate`: when `do_asso` holds, run the external JCBB search
and subset/reorder the measurement quantities by the resulting association;
`none` models the `IndexError` numpy raises when the association vector's
length or entries are out of contract.  When `do_asso` is false the Python
method's `else` branch is `pass`, so the function returns `None` — `none`
here. -/
def associate (self : EKFSLAM) (jcbb : JCBBOracle) {L : ℕ} (ds : List (ℝ × ℝ))
    (zpred : Fin (2 * L) → ℝ) (H : Matrix (Fin (2 * L)) (Fin (3 + 2 * L)) ℝ)
    (S : Matrix (Fin (2 * L)) (Fin (2 * L)) ℝ) : Option (AssocResult L) :=
  if self.do_asso then
    let a := jcbb (flatPairs ds) (vecFun zpred) (matFun S) (self.alphas 0) (self.alphas 1)
    if a.length = ds.length ∧ ∀ x ∈ a, x < (L : ℤ) then
      some ⟨matchedK ds a, zassV ds a, zpredMatched zpred ds a,
        Hmatched H ds a, Smatched S ds a, a⟩
    else none
  else none

end EKFSLAM

/-- The `(eta, P, NIS, a)` tuple returned by `EKFSLAM.update`; `m` is the
number of landmarks created from unmatched detections in this step. -/
structure UpdateResult (L : ℕ) where
  m : ℕ
  eta : Fin (3 + 2 * L + 2 * m) → ℝ
  P : Matrix (Fin (3 + 2 * L + 2 * m)) (Fin (3 + 2 * L + 2 * m)) ℝ
  NIS : ℝ
  a : List ℤ

/-- Detections flagged unmatched (`a == -1`), candidates for new
landmarks. -/
def newDets (ds : List (ℝ × ℝ)) (a : List ℤ) : List (ℝ × ℝ) :=
  ((ds.zip a).filter fun p => decide (p.2 = -1)).map Prod.fst

namespace EKFSLAM

/-- The tail of `EKFSLAM.update`: when `do_asso` holds and some detection is
flagged `-1`, append the unmatched detections as new landmarks through
`add_landmarks`; otherwise pass the state through. -/
def addStep (self : EKFSLAM) {L : ℕ} (a : List ℤ) (ds : List (ℝ × ℝ))
    (eta : Fin (3 + 2 * L) → ℝ) (P : Matrix (Fin (3 + 2 * L)) (Fin (3 + 2 * L)) ℝ)
    (NIS : ℝ) : UpdateResult L :=
  if self.do_asso && a.any (fun x => x == -1) then
    let nd := newDets ds a
    let znew : Fin (2 * nd.length) → ℝ := fun t => (flatPairs nd).getD t 0
    let r := self.add_landmarks eta P znew
    ⟨nd.length, r.1, r.2, NIS, a⟩
  else ⟨0, eta, P, NIS, a⟩

/-- `EKFSLAM.update`: with landmarks present, build `zpred`, `H`,
`S = H P Hᵀ + R_big`, associate, and either skip the numeric update (empty
matched subset; `NIS = 1`) or perform the Kalman correction — gain by
solving against the (transposed) matched innovation covariance, Joseph-form
covariance; afterwards append unmatched detections as new landmarks.  With
no landmarks, all detections are flagged `-1` and `NIS = 1`.  `none` models
the `TypeError` raised when `associate` returns `None` (association
disabled) and the tuple unpacking fails. -/
def update (self : EKFSLAM) (jcbb : JCBBOracle) {L : ℕ} (eta : Fin (3 + 2 * L) → ℝ)
    (P : Matrix (Fin (3 + 2 * L)) (Fin (3 + 2 * L)) ℝ) (ds : List (ℝ × ℝ)) :
    Option (UpdateResult L) :=
  if 0 < L then
    let zpred := self.h eta
    let H := self.h_jac eta
    let S := H * P * Hᵀ + repDiag L self.R
    match self.associate jcbb ds zpred H S with
    | none => none
    | some res =>
      if res.k = 0 then some (self.addStep res.a ds eta P 1)
      else
        let v : Fin (2 * res.k) → ℝ := fun t =>
          if (t : ℕ) % 2 = 1 then utils.wrapToPi (res.zass t - res.zpredass t)
          else res.zass t - res.zpredass t
        let W := ((res.Sassᵀ)⁻¹ * (res.Hass * Pᵀ))ᵀ
        let jo := 1 - W * res.Hass
        let Pupd := jo * P * joᵀ + W * repDiag res.k self.R * Wᵀ
        let NIS := ((res.Sassᵀ)⁻¹.mulVec v) ⬝ᵥ v
        some (self.addStep res.a ds (eta + W.mulVec v) Pupd NIS)
  else
    some (self.addStep (List.replicate ds.length (-1)) ds eta P 1)

end EKFSLAM

/-- Value domain for the `NEESes` computation: numpy `float64` results that
can be a finite real, `±inf`, or `nan`.  Needed because `NEESes` divides by
a possibly-zero variance, and numpy scalar division by zero does not raise
`ZeroDivisionError` — it yields `inf`/`nan` with a warning, so the
`except ZeroDivisionError` branch in the source is dead code. -/
inductive FVal where
  | num (r : ℝ)
  | inf
  | ninf
  | nan

/-- numpy `float64` division `a / b` (with `b` stored as `+0.0` when zero,
the only way a zero arises from a covariance entry here). -/
def fdiv (a b : ℝ) : FVal :=
  if b = 0 then (if a = 0 then FVal.nan else if 0 < a then FVal.inf else FVal.ninf)
  else FVal.num (a / b)

/-- The `NEESes[np.isnan(NEESes)] = 1.0` replacement. -/
def FVal.denan : FVal → FVal
  | .nan => .num 1
  | v => v

/-- The predicate checked by the final `assert np.all(NEESes >= 0)`
(`inf >= 0` is true in numpy; `nan >= 0` is false). -/
def FVal.nonneg : FVal → Prop
  | .num r => 0 ≤ r
  | .inf => True
  | .ninf => False
  | .nan => False

open scoped Classical in
/-- The tail of `NEESes`: NaN-to-`1.0` replacement followed by the
nonnegativity assertion (`none` models `AssertionError`). -/
def NEESfinish (allv posv hdv : FVal) : Option (FVal × FVal × FVal) :=
  let a := allv.denan
  let p := posv.denan
  let hd := hdv.denan
  if a.nonneg ∧ p.nonneg ∧ hd.nonneg then some (a, p, hd) else none

namespace EKFSLAM

open scoped Classical in
/-- `EKFSLAM.NEESes`: pose error with wrapped heading, then the total /
position / heading NEES values.  `np.linalg.solve` is exact when the
determinant is nonzero and raises (`none`) when the position sub-block is
exactly singular; the heading NEES is a numpy scalar division, so a zero
variance yields `inf` or `nan` rather than raising (the
`except ZeroDivisionError` in the source never fires for `np.float64`
operands). -/
def NEESes (x : Fin 3 → ℝ) (P : Matrix (Fin 3) (Fin 3) ℝ) (x_gt : Fin 3 → ℝ) :
    Option (FVal × FVal × FVal) :=
  let d : Fin 3 → ℝ := fun i =>
    if (i : ℕ) = 2 then utils.wrapToPi (x 2 - x_gt 2) else x i - x_gt i
  if -π ≤ d 2 ∧ d 2 ≤ π then
    let d_p : Fin 2 → ℝ := fun i => d i.castSucc
    let P_p : Matrix (Fin 2) (Fin 2) ℝ := P.submatrix Fin.castSucc Fin.castSucc
    let hd := fdiv (d 2 ^ 2) (P 2 2)
    if P.det ≠ 0 then
      if P_p.det = 0 then none
      else NEESfinish (FVal.num (d ⬝ᵥ (P⁻¹).mulVec d))
        (FVal.num (d_p ⬝ᵥ (P_p⁻¹).mulVec d_p)) hd
    else NEESfinish (FVal.num 1) (FVal.num 1) hd
  else none

end EKFSLAM

/-- Concrete filter parameters with association disabled (`do_asso=False`,
default `alphas`, zero sensor offset, identity noises). -/
def egParamsOff : EKFSLAM :=
  ⟨1, 1, false, ![0.001, 0.0001], ![0, 0]⟩

/-- Concrete filter parameters with association enabled. -/
def egParamsOn : EKFSLAM :=
  ⟨1, 1, true, ![0.001, 0.0001], ![0, 0]⟩

/-- A JCBB oracle instance returning the empty association. -/
def egJcbbEmpty : JCBBOracle := fun _ _ _ _ _ => []

/-- A JCBB oracle instance flagging the single detection unmatched. -/
def egJcbbUnmatched : JCBBOracle := fun _ _ _ _ _ => [-1]

/-- A JCBB oracle instance matching the single detection to landmark 0. -/
def egJcbbMatch : JCBBOracle := fun _ _ _ _ _ => [0]

/-- A concrete zero state with no landmarks. -/
def egEta0 : Fin (3 + 2 * 0) → ℝ := fun _ => 0

/-- A concrete zero state with one landmark. -/
def egEta1 : Fin (3 + 2 * 1) → ℝ := fun _ => 0

/-- A concrete one-detection measurement batch. -/
def egDs : List (ℝ × ℝ) := [(5, 0)]

/-- A concrete two-detection measurement batch. -/
def egDs2 : List (ℝ × ℝ) := [(5, 0), (2, 1)]

/-- A JCBB oracle instance matching the first of two detections to landmark
0 and flagging the second unmatched (a partial match). -/
def egJcbbPartial : JCBBOracle := fun _ _ _ _ _ => [0, -1]

/-- A concrete identity covariance for the one-landmark state. -/
def egP1 : Matrix (Fin (3 + 2 * 1)) (Fin (3 + 2 * 1)) ℝ := 1

namespace utils

theorem wrapToPi_mem_Ioc (θ : ℝ) : -π < wrapToPi θ ∧ wrapToPi θ ≤ π := by
  unfold wrapToPi
  have h2pi : (0 : ℝ) < 2 * π := by positivity
  set c : ℤ := ⌈θ / (2 * π) - 1 / 2⌉ with hc
  have hle : θ / (2 * π) - 1 / 2 ≤ (c : ℝ) := Int.le_ceil _
  have hlt : (c : ℝ) < θ / (2 * π) - 1 / 2 + 1 := Int.ceil_lt_add_one _
  have hθ : θ / (2 * π) * (2 * π) = θ := by
    field_simp
  constructor
  · nlinarith [mul_lt_mul_of_pos_right hlt h2pi]
  · nlinarith [mul_le_mul_of_nonneg_right hle (le_of_lt h2pi)]

/-- `wrapToPi` changes its input by an exact integer multiple of `2π`. -/
theorem wrapToPi_sub_self (θ : ℝ) :
    ∃ n : ℤ, θ - wrapToPi θ = (n : ℝ) * (2 * π) := by
  exact ⟨⌈θ / (2 * π) - 1 / 2⌉, by unfold wrapToPi; ring⟩

/-- An angle already in `(-π, π]` is a fixed point of `wrapToPi`. -/
theorem wrapToPi_eq_self {θ : ℝ} (h1 : -π < θ) (h2 : θ ≤ π) : wrapToPi θ = θ := by
  unfold wrapToPi
  have h2pi : (0 : ℝ) < 2 * π := by positivity
  have hz : ⌈θ / (2 * π) - 1 / 2⌉ = 0 := by
    rw [Int.ceil_eq_zero_iff]
    constructor
    · show (-1 : ℝ) < θ / (2 * π) - 1 / 2
      have h' : (-1 / 2 : ℝ) * (2 * π) < θ := by linarith
      have := (lt_div_iff₀ h2pi).mpr h'
      linarith
    · show θ / (2 * π) - 1 / 2 ≤ 0
      have h' : θ ≤ (1 / 2 : ℝ) * (2 * π) := by linarith
      have := (div_le_iff₀ h2pi).mpr h'
      linarith
  rw [hz]
  push_cast
  ring

end utils

section BlockLemmas

variable {n m : ℕ}

theorem blockTL (A : Matrix (Fin n) (Fin n) ℝ) (B : Matrix (Fin n) (Fin m) ℝ)
    (C : Matrix (Fin m) (Fin n) ℝ) (D : Matrix (Fin m) (Fin m) ℝ) :
    (Matrix.reindex finSumFinEquiv finSumFinEquiv (Matrix.fromBlocks A B C D)).submatrix
      (Fin.castAdd m) (Fin.castAdd m) = A := by
  ext i j
  simp

theorem blockTR (A : Matrix (Fin n) (Fin n) ℝ) (B : Matrix (Fin n) (Fin m) ℝ)
    (C : Matrix (Fin m) (Fin n) ℝ) (D : Matrix (Fin m) (Fin m) ℝ) :
    (Matrix.reindex finSumFinEquiv finSumFinEquiv (Matrix.fromBlocks A B C D)).submatrix
      (Fin.castAdd m) (Fin.natAdd n) = B := by
  ext i j
  simp

theorem blockBL (A : Matrix (Fin n) (Fin n) ℝ) (B : Matrix (Fin n) (Fin m) ℝ)
    (C : Matrix (Fin m) (Fin n) ℝ) (D : Matrix (Fin m) (Fin m) ℝ) :
    (Matrix.reindex finSumFinEquiv finSumFinEquiv (Matrix.fromBlocks A B C D)).submatrix
      (Fin.natAdd n) (Fin.castAdd m) = C := by
  ext i j
  simp

theorem blockBR (A : Matrix (Fin n) (Fin n) ℝ) (B : Matrix (Fin n) (Fin m) ℝ)
    (C : Matrix (Fin m) (Fin n) ℝ) (D : Matrix (Fin m) (Fin m) ℝ) :
    (Matrix.reindex finSumFinEquiv finSumFinEquiv (Matrix.fromBlocks A B C D)).submatrix
      (Fin.natAdd n) (Fin.natAdd n) = D := by
  ext i j
  simp

end BlockLemmas

/-- C3: for every state `(eta, P)` with `L` landmarks and every odometry `u`,
`predict` returns a mean whose landmark entries equal those of `eta`
unchanged, a pose-pose covariance block `Fx·P_xx·Fxᵀ + Fu·Q·Fuᵀ`, a pose-map
block `Fx·P_xm`, and a map-pose block that is the exact transpose of the new
pose-map block. -/
theorem C3_predict_blocks (self : EKFSLAM) {L : ℕ} (eta : Fin (3 + 2 * L) → ℝ)
    (P : Matrix (Fin (3 + 2 * L)) (Fin (3 + 2 * L)) ℝ) (u : Fin 3 → ℝ) :
    (∀ i : Fin (2 * L),
      (self.predict eta P u).1 (Fin.natAdd 3 i) = eta (Fin.natAdd 3 i)) ∧
    (self.predict eta P u).2.submatrix (Fin.castAdd (2 * L)) (Fin.castAdd (2 * L)) =
      EKFSLAM.Fx (fun i => eta (Fin.castAdd (2 * L) i)) u *
        P.submatrix (Fin.castAdd (2 * L)) (Fin.castAdd (2 * L)) *
        (EKFSLAM.Fx (fun i => eta (Fin.castAdd (2 * L) i)) u)ᵀ +
      EKFSLAM.Fu (fun i => eta (Fin.castAdd (2 * L) i)) u * self.Q *
        (EKFSLAM.Fu (fun i => eta (Fin.castAdd (2 * L) i)) u)ᵀ ∧
    (self.predict eta P u).2.submatrix (Fin.castAdd (2 * L)) (Fin.natAdd 3) =
      EKFSLAM.Fx (fun i => eta (Fin.castAdd (2 * L) i)) u *
        P.submatrix (Fin.castAdd (2 * L)) (Fin.natAdd 3) ∧
    (self.predict eta P u).2.submatrix (Fin.natAdd 3) (Fin.castAdd (2 * L)) =
      ((self.predict eta P u).2.submatrix (Fin.castAdd (2 * L)) (Fin.natAdd 3))ᵀ := by
  refine ⟨fun i => ?_, ?_, ?_, ?_⟩
  · simp [EKFSLAM.predict]
  · rw [EKFSLAM.predict, blockTL]
  · rw [EKFSLAM.predict, blockTR]
  · rw [EKFSLAM.predict, blockBL, blockTR]

/-- C6: `add_landmarks` on a state of length `3+2L` and a measurement batch
of `2k` scalars returns a state of length exactly `3+2(L+k)` (the result type
has size `3+2L+2k`) and a square covariance of that size, with the first
`3+2L` mean entries equal to `eta` and the top-left `(3+2L) × (3+2L)`
covariance block equal to `P`; existing entries are neither removed nor
reordered. -/
theorem C6_add_landmarks_grows (self : EKFSLAM) {L k : ℕ} (eta : Fin (3 + 2 * L) → ℝ)
    (P : Matrix (Fin (3 + 2 * L)) (Fin (3 + 2 * L)) ℝ) (z : Fin (2 * k) → ℝ) :
    (3 + 2 * L + 2 * k = 3 + 2 * (L + k)) ∧
    (∀ i : Fin (3 + 2 * L),
      (self.add_landmarks eta P z).1 (Fin.castAdd (2 * k) i) = eta i) ∧
    (self.add_landmarks eta P z).2.submatrix (Fin.castAdd (2 * k)) (Fin.castAdd (2 * k)) = P := by
  refine ⟨by ring, fun i => ?_, ?_⟩
  · simp [EKFSLAM.add_landmarks]
  · rw [EKFSLAM.add_landmarks, blockTL]

/-- C8: applying the motion model `f` with zero odometry returns the pose
unchanged in position, with the heading equal up to wrapping into `(-π, π]`
(the returned heading is `wrapToPi` of the input heading, which differs from
it by an exact integer multiple of `2π`). -/
theorem C8_f_zero_odometry (x : Fin 3 → ℝ) :
    EKFSLAM.f x ![0, 0, 0] 0 = x 0 ∧
    EKFSLAM.f x ![0, 0, 0] 1 = x 1 ∧
    EKFSLAM.f x ![0, 0, 0] 2 = utils.wrapToPi (x 2) ∧
    (∃ n : ℤ, x 2 - EKFSLAM.f x ![0, 0, 0] 2 = (n : ℝ) * (2 * π)) ∧
    (-π < x 2 ∧ x 2 ≤ π → EKFSLAM.f x ![0, 0, 0] 2 = x 2) := by
  refine ⟨?_, ?_, ?_, ?_, ?_⟩
  · simp [EKFSLAM.f, utils.rotmat2d, Matrix.mulVec, dotProduct, Fin.sum_univ_two]
  · simp [EKFSLAM.f, utils.rotmat2d, Matrix.mulVec, dotProduct, Fin.sum_univ_two]
  · simp [EKFSLAM.f]
  · have h := utils.wrapToPi_sub_self (x 2)
    simpa [EKFSLAM.f] using h
  · intro h
    have := utils.wrapToPi_eq_self h.1 h.2
    simpa [EKFSLAM.f] using this

/-- Witness for C8's wrap-equality implication at a concrete pose whose
heading is already in `(-π, π]`. -/
theorem C8_f_zero_odometry_witness :
    EKFSLAM.f ![0, 0, 1] ![0, 0, 0] 2 = (![0, 0, 1] : Fin 3 → ℝ) 2 :=
  (C8_f_zero_odometry ![0, 0, 1]).2.2.2.2
    ⟨by have := Real.pi_gt_three; norm_num; linarith,
     by have := Real.pi_gt_three; norm_num; linarith⟩

/-- C9: the heading component of the predicted pose `f(x, u)` lies in
`(-π, π]` for all inputs. -/
theorem C9_f_heading_wrapped (x u : Fin 3 → ℝ) :
    -π < EKFSLAM.f x u 2 ∧ EKFSLAM.f x u 2 ≤ π := by
  have h := utils.wrapToPi_mem_Ioc (x 2 + u 2)
  simpa [EKFSLAM.f] using h

/-- C10: when `do_asso` is false, `associate` returns `none` (the Python
function falls off the end of its `else: pass` branch and returns `None`),
and consequently `update` on a state with at least one tracked landmark
returns `none` (unpacking `None` into five values raises a `TypeError`). -/
theorem C10_disabled_association_crashes (self : EKFSLAM) (jcbb : JCBBOracle)
    {L : ℕ} (ds : List (ℝ × ℝ)) (zpred : Fin (2 * L) → ℝ)
    (H : Matrix (Fin (2 * L)) (Fin (3 + 2 * L)) ℝ)
    (S : Matrix (Fin (2 * L)) (Fin (2 * L)) ℝ)
    (eta : Fin (3 + 2 * L) → ℝ) (P : Matrix (Fin (3 + 2 * L)) (Fin (3 + 2 * L)) ℝ)
    (hasso : self.do_asso = false) (hL : 0 < L) :
    self.associate jcbb ds zpred H S = none ∧ self.update jcbb eta P ds = none := by
  constructor
  · simp [EKFSLAM.associate, hasso]
  · simp [EKFSLAM.update, EKFSLAM.associate, hasso, hL]

/-- Witness for C10 at a concrete input: association disabled, one tracked
landmark. -/
theorem C10_disabled_association_crashes_witness :
    egParamsOff.associate egJcbbEmpty (L := 1) egDs (fun _ => 0) 0 0 = none ∧
      egParamsOff.update egJcbbEmpty egEta1 1 egDs = none :=
  C10_disabled_association_crashes egParamsOff egJcbbEmpty egDs (fun _ => 0) 0 0
    egEta1 1 rfl (by decide)

section AddStepLemmas

variable (self : EKFSLAM) {L : ℕ} (a : List ℤ) (ds : List (ℝ × ℝ))
variable (eta : Fin (3 + 2 * L) → ℝ) (P : Matrix (Fin (3 + 2 * L)) (Fin (3 + 2 * L)) ℝ)
variable (NIS : ℝ)

theorem addStep_NIS : (self.addStep a ds eta P NIS).NIS = NIS := by
  rw [EKFSLAM.addStep]
  split <;> rfl

theorem addStep_assoc : (self.addStep a ds eta P NIS).a = a := by
  rw [EKFSLAM.addStep]
  split <;> rfl

theorem addStep_eta_unchanged (i : Fin (3 + 2 * L)) :
    (self.addStep a ds eta P NIS).eta
      (Fin.castAdd (2 * (self.addStep a ds eta P NIS).m) i) = eta i := by
  by_cases hcond : (self.do_asso && a.any fun x => x == -1) = true
  · rw [EKFSLAM.addStep, if_pos hcond]
    simp [EKFSLAM.add_landmarks]
  · rw [EKFSLAM.addStep, if_neg hcond]
    rfl

theorem addStep_P_unchanged (i j : Fin (3 + 2 * L)) :
    (self.addStep a ds eta P NIS).P
      (Fin.castAdd (2 * (self.addStep a ds eta P NIS).m) i)
      (Fin.castAdd (2 * (self.addStep a ds eta P NIS).m) j) = P i j := by
  by_cases hcond : (self.do_asso && a.any fun x => x == -1) = true
  · rw [EKFSLAM.addStep, if_pos hcond]
    simp [EKFSLAM.add_landmarks]
  · rw [EKFSLAM.addStep, if_neg hcond]
    rfl

end AddStepLemmas

/-- With every association at most `-1` (no detection matched), the matched
subset is empty. -/
theorem matchedDets_eq_nil {ds : List (ℝ × ℝ)} {a : List ℤ}
    (h : ∀ x ∈ a, x ≤ -1) : matchedDets ds a = [] := by
  rw [matchedDets, List.filter_eq_nil_iff]
  intro p hp
  have hx := h _ (List.of_mem_zip hp).2
  simp only [decide_eq_true_eq, not_lt]
  omega

theorem matchedK_eq_zero {ds : List (ℝ × ℝ)} {a : List ℤ}
    (h : ∀ x ∈ a, x ≤ -1) : matchedK ds a = 0 := by
  simp [matchedK, mjList, matchedDets_eq_nil h]

/-- C7: if no landmarks are tracked yet, or the matched subset returned by
association is empty, `update` skips the Kalman numeric step: it succeeds
with `NIS = 1`, an association vector with one `-1` entry per detection, and
`eta`/`P` unchanged except for landmarks appended afterwards for the
unmatched detections.  The second conjunct takes the JCBB output (one entry
per detection, entries at least `-1` by the search's contract) with an empty
matched subset (all entries at most `-1`). -/
theorem C7_update_skips_kalman :
    (∀ (self : EKFSLAM) (jcbb : JCBBOracle) (eta : Fin (3 + 2 * 0) → ℝ)
      (P : Matrix (Fin (3 + 2 * 0)) (Fin (3 + 2 * 0)) ℝ) (ds : List (ℝ × ℝ)),
      ∃ r : UpdateResult 0, self.update jcbb eta P ds = some r ∧
        r.NIS = 1 ∧ r.a.length = ds.length ∧ (∀ x ∈ r.a, x = -1) ∧
        (∀ i, r.eta (Fin.castAdd (2 * r.m) i) = eta i) ∧
        (∀ i j, r.P (Fin.castAdd (2 * r.m) i) (Fin.castAdd (2 * r.m) j) = P i j)) ∧
    (∀ (self : EKFSLAM) (jcbb : JCBBOracle) (L : ℕ) (eta : Fin (3 + 2 * L) → ℝ)
      (P : Matrix (Fin (3 + 2 * L)) (Fin (3 + 2 * L)) ℝ) (ds : List (ℝ × ℝ)) (a : List ℤ),
      0 < L → self.do_asso = true →
      a = jcbb (flatPairs ds) (vecFun (self.h eta))
        (matFun (self.h_jac eta * P * (self.h_jac eta)ᵀ + repDiag L self.R))
        (self.alphas 0) (self.alphas 1) →
      a.length = ds.length →
      (∀ x ∈ a, x ≤ -1) → (∀ x ∈ a, -1 ≤ x) →
      ∃ r : UpdateResult L, self.update jcbb eta P ds = some r ∧
        r.NIS = 1 ∧ r.a = a ∧ (∀ x ∈ r.a, x = -1) ∧
        (∀ i, r.eta (Fin.castAdd (2 * r.m) i) = eta i) ∧
        (∀ i j, r.P (Fin.castAdd (2 * r.m) i) (Fin.castAdd (2 * r.m) j) = P i j)) := by
  constructor
  · intro self jcbb eta P ds
    refine ⟨self.addStep (List.replicate ds.length (-1)) ds eta P 1, ?_,
      addStep_NIS _ _ _ _ _ _, ?_, ?_,
      addStep_eta_unchanged _ _ _ _ _ _, addStep_P_unchanged _ _ _ _ _ _⟩
    · rw [EKFSLAM.update, if_neg (by norm_num)]
    · rw [addStep_assoc]
      exact List.length_replicate _ _
    · intro x hx
      rw [addStep_assoc] at hx
      exact List.eq_of_mem_replicate hx
  · intro self jcbb L eta P ds a hL hasso ha hlen hub hlb
    have hguard : a.length = ds.length ∧ ∀ x ∈ a, x < (L : ℤ) :=
      ⟨hlen, fun x hx => by have := hub x hx; omega⟩
    have hk : matchedK ds a = 0 := matchedK_eq_zero hub
    refine ⟨self.addStep a ds eta P 1, ?_, addStep_NIS _ _ _ _ _ _,
      addStep_assoc _ _ _ _ _ _, ?_,
      addStep_eta_unchanged _ _ _ _ _ _, addStep_P_unchanged _ _ _ _ _ _⟩
    · subst ha
      rw [EKFSLAM.update, if_pos hL]
      simp only [EKFSLAM.associate, if_pos hasso, if_pos hguard, if_pos hk]
    · intro x hx
      rw [addStep_assoc] at hx
      exact le_antisymm (hub x hx) (hlb x hx)

/-- Witness for C7 at concrete inputs: a no-landmark state with one
detection, and a one-landmark state whose single detection the (concrete)
JCBB oracle flags unmatched. -/
theorem C7_update_skips_kalman_witness :
    (∃ r : UpdateResult 0, egParamsOn.update egJcbbEmpty egEta0 1 egDs = some r ∧
      r.NIS = 1 ∧ r.a.length = egDs.length ∧ (∀ x ∈ r.a, x = -1) ∧
      (∀ i, r.eta (Fin.castAdd (2 * r.m) i) = egEta0 i) ∧
      (∀ i j, r.P (Fin.castAdd (2 * r.m) i) (Fin.castAdd (2 * r.m) j) =
        (1 : Matrix (Fin (3 + 2 * 0)) (Fin (3 + 2 * 0)) ℝ) i j)) ∧
    (∃ r : UpdateResult 1, egParamsOn.update egJcbbUnmatched egEta1 1 egDs = some r ∧
      r.NIS = 1 ∧ r.a = [-1] ∧ (∀ x ∈ r.a, x = -1) ∧
      (∀ i, r.eta (Fin.castAdd (2 * r.m) i) = egEta1 i) ∧
      (∀ i j, r.P (Fin.castAdd (2 * r.m) i) (Fin.castAdd (2 * r.m) j) =
        (1 : Matrix (Fin (3 + 2 * 1)) (Fin (3 + 2 * 1)) ℝ) i j)) :=
  ⟨C7_update_skips_kalman.1 egParamsOn egJcbbEmpty egEta0 1 egDs,
   C7_update_skips_kalman.2 egParamsOn egJcbbUnmatched 1 egEta1 1 egDs [-1]
    (by norm_num) rfl rfl rfl (by decide) (by decide)⟩

/-- In exact arithmetic, the gain the source computes by Cholesky-solving
against `Saᵀ` — `W = cho_solve(cho_factor(Sa.T), Ha @ P.T).T` — equals
`P · Haᵀ · Sa⁻¹`. -/
theorem cho_gain_eq {n m : ℕ} (P : Matrix (Fin n) (Fin n) ℝ)
    (Ha : Matrix (Fin m) (Fin n) ℝ) (Sa : Matrix (Fin m) (Fin m) ℝ) :
    ((Saᵀ)⁻¹ * (Ha * Pᵀ))ᵀ = P * Haᵀ * Sa⁻¹ := by
  simp [Matrix.transpose_mul, Matrix.transpose_nonsing_inv, Matrix.mul_assoc]

/-- With every association index nonnegative, the matched subset is all of
`ds`. -/
theorem matchedK_all_matched {ds : List (ℝ × ℝ)} {a : List ℤ}
    (hlen : a.length = ds.length) (hmatch : ∀ x ∈ a, -1 < x) :
    matchedK ds a = ds.length := by
  have hfil : matchedDets ds a = ds.zip a := by
    rw [matchedDets, List.filter_eq_self]
    intro p hp
    simp only [decide_eq_true_eq]
    exact hmatch _ (List.of_mem_zip hp).2
  simp [matchedK, mjList, hfil, List.length_zip, hlen]

/-- If some association index exceeds `-1` and the association vector has
one entry per detection, the matched subset is non-empty. -/
theorem mem_zip_right {l1 : List (ℝ × ℝ)} {l2 : List ℤ} (hlen : l2.length ≤ l1.length)
    {b : ℤ} (hb : b ∈ l2) : ∃ p ∈ l1.zip l2, p.2 = b := by
  induction l2 generalizing l1 with
  | nil => cases hb
  | cons x t ih =>
    cases l1 with
    | nil => exact absurd hlen (by simp)
    | cons y s =>
      rcases List.mem_cons.mp hb with rfl | hbt
      · refine ⟨(y, b), ?_, rfl⟩
        rw [List.zip_cons_cons]
        exact List.mem_cons_self _ _
      · obtain ⟨p, hp, hpb⟩ := ih (by simpa using Nat.le_of_succ_le_succ hlen) hbt
        refine ⟨p, ?_, hpb⟩
        rw [List.zip_cons_cons]
        exact List.mem_cons_of_mem _ hp

theorem matchedK_ne_zero {ds : List (ℝ × ℝ)} {a : List ℤ}
    (hlen : a.length = ds.length) (hne : ∃ x ∈ a, -1 < x) : matchedK ds a ≠ 0 := by
  obtain ⟨x, hx, hxm⟩ := hne
  obtain ⟨p, hp, hpb⟩ := mem_zip_right (le_of_eq hlen) hx
  have hmem : p ∈ matchedDets ds a := by
    rw [matchedDets, List.mem_filter]
    exact ⟨hp, by rw [hpb]; exact decide_eq_true hxm⟩
  intro h0
  rw [matchedK, mjList, List.length_map, List.length_eq_zero] at h0
  rw [h0] at hmem
  exact absurd hmem (List.not_mem_nil p)

/-- When no detection is flagged `-1`, `addStep` appends nothing. -/
theorem addStep_m_of_none (self : EKFSLAM) {L : ℕ} (a : List ℤ) (ds : List (ℝ × ℝ))
    (eta : Fin (3 + 2 * L) → ℝ) (P : Matrix (Fin (3 + 2 * L)) (Fin (3 + 2 * L)) ℝ)
    (NIS : ℝ) (hany : (a.any fun x => x == -1) = false) :
    (self.addStep a ds eta P NIS).m = 0 := by
  rw [EKFSLAM.addStep, if_neg (by simp [hany])]

/-- C4: for every call to `update` with at least one tracked landmark and a
non-empty matched subset (some association index exceeds `-1`, under JCBB's
per-detection output contract), the Kalman-corrected covariance is the
Joseph form `(I − W·Ha)·P·(I − W·Ha)ᵀ + W·R_matched·Wᵀ` with gain
`W = P·Haᵀ·Sa⁻¹` (computed in the source by Cholesky-solving rather than
inverting) and `R_matched` the block-diagonal repetition of `R` over the
matched pairs: the top-left `(3+2L) × (3+2L)` block of the returned
covariance equals that Joseph form, any remaining rows/columns being the
landmarks appended afterwards for unmatched detections — and when every
detection is matched nothing is appended, so the returned covariance is
exactly the Joseph form. -/
theorem C4_update_joseph_form (self : EKFSLAM) (jcbb : JCBBOracle) {L : ℕ}
    (eta : Fin (3 + 2 * L) → ℝ) (P : Matrix (Fin (3 + 2 * L)) (Fin (3 + 2 * L)) ℝ)
    (ds : List (ℝ × ℝ)) (a : List ℤ) (hL : 0 < L) (hasso : self.do_asso = true)
    (ha : a = jcbb (flatPairs ds) (vecFun (self.h eta))
      (matFun (self.h_jac eta * P * (self.h_jac eta)ᵀ + repDiag L self.R))
      (self.alphas 0) (self.alphas 1))
    (hlen : a.length = ds.length) (hub : ∀ x ∈ a, x < (L : ℤ))
    (hne : ∃ x ∈ a, -1 < x) :
    ∃ r : UpdateResult L, self.update jcbb eta P ds = some r ∧ r.a = a ∧
      r.P.submatrix (Fin.castAdd (2 * r.m)) (Fin.castAdd (2 * r.m)) =
          ((1 - P * (Hmatched (self.h_jac eta) ds a)ᵀ *
                (Smatched (self.h_jac eta * P * (self.h_jac eta)ᵀ + repDiag L self.R) ds a)⁻¹ *
                Hmatched (self.h_jac eta) ds a) * P *
              (1 - P * (Hmatched (self.h_jac eta) ds a)ᵀ *
                (Smatched (self.h_jac eta * P * (self.h_jac eta)ᵀ + repDiag L self.R) ds a)⁻¹ *
                Hmatched (self.h_jac eta) ds a)ᵀ +
            P * (Hmatched (self.h_jac eta) ds a)ᵀ *
                (Smatched (self.h_jac eta * P * (self.h_jac eta)ᵀ + repDiag L self.R) ds a)⁻¹ *
                repDiag (matchedK ds a) self.R *
              (P * (Hmatched (self.h_jac eta) ds a)ᵀ *
                (Smatched (self.h_jac eta * P * (self.h_jac eta)ᵀ + repDiag L self.R) ds a)⁻¹)ᵀ) ∧
      ((∀ x ∈ a, -1 < x) → r.m = 0) := by
  subst ha
  have hguard : (jcbb (flatPairs ds) (vecFun (self.h eta))
      (matFun (self.h_jac eta * P * (self.h_jac eta)ᵀ + repDiag L self.R))
      (self.alphas 0) (self.alphas 1)).length = ds.length ∧
      ∀ x ∈ jcbb (flatPairs ds) (vecFun (self.h eta))
        (matFun (self.h_jac eta * P * (self.h_jac eta)ᵀ + repDiag L self.R))
        (self.alphas 0) (self.alphas 1), x < (L : ℤ) := ⟨hlen, hub⟩
  have hk : ¬ (matchedK ds (jcbb (flatPairs ds) (vecFun (self.h eta))
      (matFun (self.h_jac eta * P * (self.h_jac eta)ᵀ + repDiag L self.R))
      (self.alphas 0) (self.alphas 1)) = 0) := matchedK_ne_zero hlen hne
  rw [EKFSLAM.update, if_pos hL]
  simp only [EKFSLAM.associate, if_pos hasso, if_pos hguard, if_neg hk]
  refine ⟨_, rfl, addStep_assoc _ _ _ _ _ _, ?_, ?_⟩
  · ext i j
    rw [Matrix.submatrix_apply, addStep_P_unchanged, cho_gain_eq]
  · intro hall
    refine addStep_m_of_none _ _ _ _ _ _ ?_
    rw [List.any_eq_false]
    intro x hx
    have := hall x hx
    simp only [beq_iff_eq]
    omega

/-- Witness for C4 at a concrete input: one landmark, two detections, the
concrete JCBB oracle matching the first to landmark 0 and flagging the
second unmatched — a partial match with a non-empty matched subset. -/
theorem C4_update_joseph_form_witness :
    ∃ r : UpdateResult 1, egParamsOn.update egJcbbPartial egEta1 egP1 egDs2 = some r ∧
      r.a = [0, -1] ∧
      r.P.submatrix (Fin.castAdd (2 * r.m)) (Fin.castAdd (2 * r.m)) =
          ((1 - egP1 * (Hmatched (egParamsOn.h_jac egEta1) egDs2 [0, -1])ᵀ *
                (Smatched (egParamsOn.h_jac egEta1 * egP1 * (egParamsOn.h_jac egEta1)ᵀ +
                  repDiag 1 egParamsOn.R) egDs2 [0, -1])⁻¹ *
                Hmatched (egParamsOn.h_jac egEta1) egDs2 [0, -1]) * egP1 *
              (1 - egP1 * (Hmatched (egParamsOn.h_jac egEta1) egDs2 [0, -1])ᵀ *
                (Smatched (egParamsOn.h_jac egEta1 * egP1 * (egParamsOn.h_jac egEta1)ᵀ +
                  repDiag 1 egParamsOn.R) egDs2 [0, -1])⁻¹ *
                Hmatched (egParamsOn.h_jac egEta1) egDs2 [0, -1])ᵀ +
            egP1 * (Hmatched (egParamsOn.h_jac egEta1) egDs2 [0, -1])ᵀ *
                (Smatched (egParamsOn.h_jac egEta1 * egP1 * (egParamsOn.h_jac egEta1)ᵀ +
                  repDiag 1 egParamsOn.R) egDs2 [0, -1])⁻¹ *
                repDiag (matchedK egDs2 [0, -1]) egParamsOn.R *
              (egP1 * (Hmatched (egParamsOn.h_jac egEta1) egDs2 [0, -1])ᵀ *
                (Smatched (egParamsOn.h_jac egEta1 * egP1 * (egParamsOn.h_jac egEta1)ᵀ +
                  repDiag 1 egParamsOn.R) egDs2 [0, -1])⁻¹)ᵀ) ∧
      ((∀ x ∈ ([0, -1] : List ℤ), -1 < x) → r.m = 0) :=
  C4_update_joseph_form egParamsOn egJcbbPartial egEta1 egP1 egDs2 [0, -1]
    (by norm_num) rfl rfl rfl (by decide) (by decide)

/-- Transposing a congruence `G · R · Gᵀ` of a symmetric matrix gives it
back. -/
theorem conjT_symm {m n : ℕ} (G : Matrix (Fin m) (Fin n) ℝ)
    (R : Matrix (Fin n) (Fin n) ℝ) (hR : Rᵀ = R) : (G * R * Gᵀ)ᵀ = G * R * Gᵀ := by
  simp [Matrix.transpose_mul, Matrix.mul_assoc, hR]

/-- The block-diagonal repetition of a symmetric `2 × 2` block is
symmetric. -/
theorem repDiag_symm {k : ℕ} {R : Matrix (Fin 2) (Fin 2) ℝ} (hR : Rᵀ = R) :
    (repDiag k R)ᵀ = repDiag k R := by
  ext i j
  simp only [repDiag, Matrix.transpose_apply, Matrix.of_apply]
  by_cases hij : (i : ℕ) / 2 = (j : ℕ) / 2
  · rw [if_pos hij.symm, if_pos hij]
    exact congrFun (congrFun hR _) _
  · rw [if_neg (fun hc => hij hc.symm), if_neg hij]

/-- A `2 × 2`-block-diagonal matrix assembled from symmetric blocks is
symmetric (the shape of `Rall` in `add_landmarks`). -/
theorem blockDiag2_symm {k : ℕ} (M : ℕ → Matrix (Fin 2) (Fin 2) ℝ)
    (hM : ∀ j, (M j)ᵀ = M j) :
    (Matrix.of fun t s : Fin (2 * k) =>
      if (t : ℕ) / 2 = (s : ℕ) / 2 then
        M ((t : ℕ) / 2) ⟨(t : ℕ) % 2, by omega⟩ ⟨(s : ℕ) % 2, by omega⟩
      else 0)ᵀ =
    (Matrix.of fun t s : Fin (2 * k) =>
      if (t : ℕ) / 2 = (s : ℕ) / 2 then
        M ((t : ℕ) / 2) ⟨(t : ℕ) % 2, by omega⟩ ⟨(s : ℕ) % 2, by omega⟩
      else 0) := by
  ext t s
  simp only [Matrix.transpose_apply, Matrix.of_apply]
  by_cases hts : (t : ℕ) / 2 = (s : ℕ) / 2
  · rw [if_pos hts.symm, if_pos hts, ← hts]
    exact congrFun (congrFun (hM _) _) _
  · rw [if_neg (fun hc => hts hc.symm), if_neg hts]

/-- The grown covariance returned by `add_landmarks` is symmetric whenever
the input covariance and the measurement noise are. -/
theorem add_landmarks_symm (self : EKFSLAM) {L k : ℕ} (eta : Fin (3 + 2 * L) → ℝ)
    (P : Matrix (Fin (3 + 2 * L)) (Fin (3 + 2 * L)) ℝ) (z : Fin (2 * k) → ℝ)
    (hP : Pᵀ = P) (hR : self.Rᵀ = self.R) :
    ((self.add_landmarks eta P z).2)ᵀ = (self.add_landmarks eta P z).2 := by
  rw [EKFSLAM.add_landmarks]
  simp only [Matrix.transpose_reindex, Matrix.fromBlocks_transpose,
    Matrix.transpose_transpose]
  rw [hP]
  rw [Matrix.transpose_add]
  rw [conjT_symm _ _ (show (P.submatrix (Fin.castAdd (2 * L)) (Fin.castAdd (2 * L)))ᵀ =
    P.submatrix (Fin.castAdd (2 * L)) (Fin.castAdd (2 * L)) by
      rw [Matrix.transpose_submatrix, hP])]
  rw [blockDiag2_symm
    (fun j => utils.rotmat2d (zb z j + eta (Fin.castAdd (2 * L) 2)) * !![1, 0; 0, zr z j] *
      self.R * (utils.rotmat2d (zb z j + eta (Fin.castAdd (2 * L) 2)) * !![1, 0; 0, zr z j])ᵀ)
    (fun j => conjT_symm _ _ hR)]

/-- The covariance coming out of `addStep` is symmetric whenever its inputs
are. -/
theorem addStep_symm (self : EKFSLAM) {L : ℕ} (a : List ℤ) (ds : List (ℝ × ℝ))
    (eta : Fin (3 + 2 * L) → ℝ) (P : Matrix (Fin (3 + 2 * L)) (Fin (3 + 2 * L)) ℝ)
    (NIS : ℝ) (hP : Pᵀ = P) (hR : self.Rᵀ = self.R) :
    ((self.addStep a ds eta P NIS).P)ᵀ = (self.addStep a ds eta P NIS).P := by
  by_cases hcond : (self.do_asso && a.any fun x => x == -1) = true
  · rw [EKFSLAM.addStep, if_pos hcond]
    exact add_landmarks_symm self eta P _ hP hR
  · rw [EKFSLAM.addStep, if_neg hcond]
    exact hP

/-- The Joseph-form expression is symmetric for any gain whenever `P` and
the stacked noise are. -/
theorem joseph_symm {n m : ℕ} (P : Matrix (Fin n) (Fin n) ℝ)
    (W : Matrix (Fin n) (Fin m) ℝ) (Ha : Matrix (Fin m) (Fin n) ℝ)
    (RB : Matrix (Fin m) (Fin m) ℝ) (hP : Pᵀ = P) (hRB : RBᵀ = RB) :
    ((1 - W * Ha) * P * (1 - W * Ha)ᵀ + W * RB * Wᵀ)ᵀ =
      (1 - W * Ha) * P * (1 - W * Ha)ᵀ + W * RB * Wᵀ := by
  rw [Matrix.transpose_add, conjT_symm _ _ hP, conjT_symm _ _ hRB]

/-- C5: for every symmetric input covariance (and symmetric noise
parameters, part of the covariance data model), the covariance returned by
`predict` is symmetric, and so is the covariance returned by `update`
whenever `update` returns at all — through the no-landmark, empty-match and
Kalman/Joseph branches, including any landmark augmentation. -/
theorem C5_covariance_symmetric :
    (∀ (self : EKFSLAM) (L : ℕ) (eta : Fin (3 + 2 * L) → ℝ)
      (P : Matrix (Fin (3 + 2 * L)) (Fin (3 + 2 * L)) ℝ) (u : Fin 3 → ℝ),
      Pᵀ = P → self.Qᵀ = self.Q →
      ((self.predict eta P u).2)ᵀ = (self.predict eta P u).2) ∧
    (∀ (self : EKFSLAM) (jcbb : JCBBOracle) (L : ℕ) (eta : Fin (3 + 2 * L) → ℝ)
      (P : Matrix (Fin (3 + 2 * L)) (Fin (3 + 2 * L)) ℝ) (ds : List (ℝ × ℝ))
      (r : UpdateResult L),
      Pᵀ = P → self.Rᵀ = self.R →
      self.update jcbb eta P ds = some r → (r.P)ᵀ = r.P) := by
  constructor
  · intro self L eta P u hP hQ
    rw [EKFSLAM.predict]
    simp only [Matrix.transpose_reindex, Matrix.fromBlocks_transpose,
      Matrix.transpose_transpose]
    rw [Matrix.transpose_add,
      conjT_symm _ _ (show (P.submatrix (Fin.castAdd (2 * L)) (Fin.castAdd (2 * L)))ᵀ =
        P.submatrix (Fin.castAdd (2 * L)) (Fin.castAdd (2 * L)) by
          rw [Matrix.transpose_submatrix, hP]),
      conjT_symm _ _ hQ,
      show (P.submatrix (Fin.natAdd 3) (Fin.natAdd 3))ᵀ =
        P.submatrix (Fin.natAdd 3) (Fin.natAdd 3) by
          rw [Matrix.transpose_submatrix, hP]]
  · intro self jcbb L eta P ds r hP hR hr
    by_cases hL : 0 < L
    · rw [EKFSLAM.update, if_pos hL] at hr
      simp only [] at hr
      rcases hassoc : self.associate jcbb ds (self.h eta) (self.h_jac eta)
          (self.h_jac eta * P * (self.h_jac eta)ᵀ + repDiag L self.R) with _ | res
      · rw [hassoc] at hr
        exact absurd hr (by simp)
      · rw [hassoc] at hr
        simp only [] at hr
        by_cases hk : res.k = 0
        · rw [if_pos hk] at hr
          obtain rfl : self.addStep res.a ds eta P 1 = r := Option.some.inj hr
          exact addStep_symm self res.a ds eta P 1 hP hR
        · rw [if_neg hk] at hr
          obtain rfl := Option.some.inj hr
          exact addStep_symm self res.a ds _ _ _
            (by
              rw [cho_gain_eq]
              exact joseph_symm P _ res.Hass (repDiag res.k self.R) hP (repDiag_symm hR))
            hR
    · rw [EKFSLAM.update, if_neg hL] at hr
      obtain rfl := Option.some.inj hr
      exact addStep_symm self _ ds eta P 1 hP hR

/-- Witness for C5 at concrete symmetric inputs (identity covariances). -/
theorem C5_covariance_symmetric_witness :
    ((egParamsOn.predict egEta1 egP1 ![1, 0, 0]).2)ᵀ =
      (egParamsOn.predict egEta1 egP1 ![1, 0, 0]).2 ∧
    ((⟨0, egEta0, 1, 1, []⟩ : UpdateResult 0).P)ᵀ =
      (⟨0, egEta0, 1, 1, []⟩ : UpdateResult 0).P :=
  ⟨C5_covariance_symmetric.1 egParamsOn 1 egEta1 egP1 ![1, 0, 0]
      (by simp [egP1]) (by simp [egParamsOn]),
   C5_covariance_symmetric.2 egParamsOn egJcbbEmpty 0 egEta0 1 []
      ⟨0, egEta0, 1, 1, []⟩ (by simp) (by simp [egParamsOn]) (by rfl)⟩

/-- C1: the claim fails at a degenerate covariance with nonzero heading
error.  At `x = (0,0,1)`, `x_gt = (0,0,0)`, `P = 0` (so `det P = 0` and
`P[2,2] = 0`), `NEESes` does not raise, and the total and position NEES get
the sentinel `1.0` — but the heading NEES is the numpy scalar division
`1²/0 = inf`, not the claimed `1.0`: `np.float64` division by zero never
raises `ZeroDivisionError`, so the `except` branch substituting the sentinel
is dead, and the `isnan` replacement does not catch `inf`. -/
theorem C1_neeses_zero_variance_heading_inf :
    EKFSLAM.NEESes ![0, 0, 1] 0 ![0, 0, 0] =
      some (FVal.num 1, FVal.num 1, FVal.inf) ∧
    FVal.inf ≠ FVal.num 1 := by
  have h3 : (3 : ℝ) < π := Real.pi_gt_three
  refine ⟨?_, fun hcontra => FVal.noConfusion hcontra⟩
  have hval : ((![0, 0, 1] : Fin 3 → ℝ) 2 - (![0, 0, 0] : Fin 3 → ℝ) 2) = 1 := by norm_num
  have hwrap : utils.wrapToPi ((![0, 0, 1] : Fin 3 → ℝ) 2 - (![0, 0, 0] : Fin 3 → ℝ) 2) = 1 := by
    rw [hval]
    exact utils.wrapToPi_eq_self (by linarith) (by linarith)
  rw [EKFSLAM.NEESes]
  simp only [Fin.isValue, show ((2 : Fin 3) : ℕ) = 2 from rfl, if_pos rfl, hwrap,
    if_true, eq_self_iff_true]
  rw [if_pos (⟨by linarith, by linarith⟩ : -π ≤ (1 : ℝ) ∧ (1 : ℝ) ≤ π)]
  rw [if_neg (by simp : ¬ (0 : Matrix (Fin 3) (Fin 3) ℝ).det ≠ 0)]
  rw [NEESfinish]
  rw [show fdiv ((1 : ℝ) ^ 2) ((0 : Matrix (Fin 3) (Fin 3) ℝ) 2 2) = FVal.inf by
    rw [fdiv, if_pos (by simp : ((0 : Matrix (Fin 3) (Fin 3) ℝ) 2 2) = 0),
      if_neg (by norm_num : ¬ ((1 : ℝ) ^ 2 = 0)), if_pos (by norm_num : (0 : ℝ) < 1 ^ 2)]]
  rw [if_pos (⟨by simp [FVal.denan, FVal.nonneg], by simp [FVal.denan, FVal.nonneg],
    trivial⟩ :
    (FVal.num 1).denan.nonneg ∧ (FVal.num 1).denan.nonneg ∧ FVal.inf.denan.nonneg)]
  rfl

/-- C2: with `do_asso = False` the claim fails: detections are never passed
to the landmark-initialisation step.  With no tracked landmarks, `update`
returns with the association vector all `-1` but zero landmarks appended
(the `add_landmarks` call sits under `if self.do_asso:`), and with at least
one tracked landmark `update` crashes (`associate` returns `None`).  The
first conjunct evaluates the failing input: one detection arrives and the
returned `m` (number of appended landmarks) is `0`, not `1`. -/
theorem C2_disabled_association_discards_detections :
    egParamsOff.update egJcbbEmpty egEta0 1 egDs =
      some ⟨0, egEta0, 1, 1, [-1]⟩ ∧
    egDs.length = 1 ∧
    egParamsOff.update egJcbbEmpty egEta1 1 egDs = none := by
  refine ⟨?_, rfl, ?_⟩
  · simp [EKFSLAM.update, EKFSLAM.addStep, egParamsOff, egDs]
  · simp [EKFSLAM.update, EKFSLAM.associate, egParamsOff]
